import Mathlib

/-!
Verification of the journal repository (Go, PostgreSQL, pgvector) against
its natural-language specification.

The development shallowly embeds the parts of the program the claims are
about:

* the `entries` table rows and the sqlc queries `GetEntriesNeedingVectors`,
  `UpdateEntryVector`, `SearchSimilarEntries` (SQL file, part_004);
* the vector service sync cycle `updateVectors`, and the `Start` and `Stop`
  lifecycle of `VectorService` (vectorservice/service.go);
* the citation-parsing part of the `Chat` handler (api/config_handler.go).

Timestamps are modelled as integers, embedding vectors as lists of
integers (exact arithmetic in place of the float32 components of the
code; the rounding behaviour of floats is outside the model), strings as
lists of characters, the table as a list of rows.
SQL result ordering is modelled with insertion sort (stable, like the
ordering produced by a sequential scan plus sort), which fixes the
tie-break that the SQL leaves implementation-defined.
-/

namespace Journal

/-- A row of the `entries` table, restricted to the columns the claims
touch: `id`, `user_id`, `archived`, `updated_at`, `vectors_updated_at`
(the embedding watermark) and `embedding_vector`. Absent SQL `NULL`
columns are `Option.none`. -/
structure Entry where
  id : Nat
  userId : Nat
  archived : Bool
  updatedAt : Int
  vectorsUpdatedAt : Option Int
  embedding : Option (List ℤ)
deriving DecidableEq, Repr

/-- The staleness predicate of `GetEntriesNeedingVectors`:
`embedding_vector IS NULL OR vectors_updated_at IS NULL OR
updated_at > vectors_updated_at`. -/
def staleB (e : Entry) : Bool :=
  e.embedding.isNone ||
    match e.vectorsUpdatedAt with
    | none => true
    | some s => decide (s < e.updatedAt)

/-- The `WHERE` clause of `GetEntriesNeedingVectors`:
`user_id = $1 AND archived = false AND` the staleness disjunction. -/
def needsVectorsB (uid : Nat) (e : Entry) : Bool :=
  e.userId == uid && !e.archived && staleB e

/-- The ordering of `ORDER BY updated_at DESC`: most recently updated
first. -/
def updatedDesc (a b : Entry) : Prop :=
  b.updatedAt ≤ a.updatedAt

instance : DecidableRel updatedDesc := fun a b =>
  inferInstanceAs (Decidable (b.updatedAt ≤ a.updatedAt))

instance : IsTotal Entry updatedDesc :=
  ⟨fun a b => (Int.le_total b.updatedAt a.updatedAt).elim Or.inl Or.inr⟩

instance : IsTrans Entry updatedDesc :=
  ⟨fun _ _ _ hab hbc => le_trans hbc hab⟩

/-- `GetEntriesNeedingVectors` (SQL): filter the table by owner,
non-archived and stale, order by `updated_at DESC`, and `LIMIT` the
result. -/
def getEntriesNeedingVectors (uid : Nat) (lim : Nat) (table : List Entry) : List Entry :=
  (((table.filter (needsVectorsB uid)).insertionSort updatedDesc).take lim)

/-- A small concrete table used to instantiate the fetch-stale-batch
theorem: two stale notes of owner 7, one fresh note of owner 7, one stale
note of another owner, one archived note. -/
def c1Table : List Entry :=
  [⟨1, 7, false, 100, none, none⟩,
   ⟨2, 7, false, 50, some 40, some [1]⟩,
   ⟨3, 7, false, 30, some 60, some [1]⟩,
   ⟨4, 9, false, 200, none, none⟩,
   ⟨5, 7, true, 300, none, none⟩]

/-- Dot product of two vectors, truncating at the shorter one (pgvector
requires equal dimensions, so the truncation is never exercised). -/
def dotQ (a b : List ℤ) : ℤ :=
  (List.zipWith (fun x y => x * y) a b).sum

/-- Squared Euclidean distance between two vectors. The pgvector operator
`<->` used by `SearchSimilarEntries` is the Euclidean (L2) distance; the
model carries its square to stay inside exact arithmetic. Ordering by the
square is equivalent to ordering by the distance, because the square root
is strictly monotone on nonnegatives. -/
def l2distSq (a b : List ℤ) : ℤ :=
  (List.zipWith (fun x y => (x - y) * (x - y)) a b).sum

/-- The `WHERE` clause of `SearchSimilarEntries`:
`user_id = $1 AND archived = false AND embedding_vector IS NOT NULL`. -/
def searchFilterB (uid : Nat) (e : Entry) : Bool :=
  e.userId == uid && !e.archived && e.embedding.isSome

/-- A result row of `SearchSimilarEntries`: the entry together with the
`distance` column, carried as its square (see `l2distSq`). -/
structure SimRow where
  entry : Entry
  distSq : ℤ
deriving DecidableEq, Repr

/-- The ordering of `ORDER BY embedding_vector <-> $2`: ascending
Euclidean distance, equivalently ascending squared distance. -/
def distAsc (a b : SimRow) : Prop :=
  a.distSq ≤ b.distSq

instance : DecidableRel distAsc := fun a b =>
  inferInstanceAs (Decidable (a.distSq ≤ b.distSq))

instance : IsTotal SimRow distAsc :=
  ⟨fun a b => le_total a.distSq b.distSq⟩

instance : IsTrans SimRow distAsc :=
  ⟨fun _ _ _ hab hbc => le_trans hab hbc⟩

/-- `SearchSimilarEntries` (SQL): filter by owner, non-archived and
embedding present, attach the distance to the query vector, order by
ascending distance, `LIMIT` the result. -/
def searchSimilarEntries (uid : Nat) (q : List ℤ) (k : Nat) (table : List Entry) : List SimRow :=
  ((((table.filter (searchFilterB uid)).map
      (fun e => ⟨e, l2distSq (e.embedding.getD []) q⟩)).insertionSort distAsc).take k)

/-- Modelled from the spec: strict comparison of cosine distances,
written square-root-free over ℤ. `cosDistLt a b q` holds iff the cosine
distance between `a` and `q` is strictly smaller than the cosine distance
between `b` and `q` (for nonzero vectors): cosine distance is
`1 - dot(x,q) / (norm x * norm q)`, so the comparison reduces to comparing
`dot(a,q) / norm a` with `dot(b,q) / norm b`, done by sign analysis and
cross-multiplied squares. -/
def cosDistLt (a b q : List ℤ) : Prop :=
  (0 ≤ dotQ a q ∧ dotQ b q < 0) ∨
  (0 ≤ dotQ a q ∧ 0 ≤ dotQ b q ∧
    dotQ b q * dotQ b q * dotQ a a < dotQ a q * dotQ a q * dotQ b b) ∨
  (dotQ a q < 0 ∧ dotQ b q < 0 ∧
    dotQ a q * dotQ a q * dotQ b b < dotQ b q * dotQ b q * dotQ a a)

instance (a b q : List ℤ) : Decidable (cosDistLt a b q) :=
  inferInstanceAs (Decidable
    ((0 ≤ dotQ a q ∧ dotQ b q < 0) ∨
     (0 ≤ dotQ a q ∧ 0 ≤ dotQ b q ∧
       dotQ b q * dotQ b q * dotQ a a < dotQ a q * dotQ a q * dotQ b b) ∨
     (dotQ a q < 0 ∧ dotQ b q < 0 ∧
       dotQ a q * dotQ a q * dotQ b b < dotQ b q * dotQ b q * dotQ a a)))

/-- A concrete table for the nearest-neighbor counterexample: owner 7
owns two embedded notes, one far in Euclidean distance but at cosine
distance 0 from the query `[1, 0]`, the other nearby in Euclidean
distance but at cosine distance 1. -/
def c2Table : List Entry :=
  [⟨1, 7, false, 0, some 0, some [10, 0]⟩,
   ⟨2, 7, false, 0, some 0, some [0, 1]⟩]

/-- ASCII whitespace, as trimmed by the Go `strings.TrimSpace` on the
inputs of this development (the Go function also trims other Unicode
space characters, which do not occur in the claims). -/
def isWS (c : Char) : Bool :=
  c == ' ' || c == '\t' || c == '\n' || c == '\r'

/-- Trim whitespace from both ends of a character list, modelling the Go
`strings.TrimSpace`. -/
def trimList (cs : List Char) : List Char :=
  ((cs.dropWhile isWS).reverse.dropWhile isWS).reverse

/-- Accumulate a decimal value over a digit run; any non-digit character
makes the parse fail, as in the Go `strconv.Atoi`. -/
def digitsValAux : List Char → Nat → Option Nat
  | [], acc => some acc
  | c :: cs, acc =>
    if c.isDigit then digitsValAux cs (acc * 10 + (c.toNat - 48)) else none

/-- The Go `strconv.Atoi` on a character list: an optional sign followed
by a nonempty digit run; anything else fails. Integer range overflow of
the Go `int` is not modelled (citation ordinals are tiny). -/
def atoi : List Char → Option Int
  | [] => none
  | '+' :: cs => if cs.isEmpty then none else (digitsValAux cs 0).map Int.ofNat
  | '-' :: cs => if cs.isEmpty then none else (digitsValAux cs 0).map (fun v => -(v : Int))
  | cs => (digitsValAux cs 0).map Int.ofNat

/-- Fuel-driven splitter: split `xs` on the separator `sep`, non-empty and
non-overlapping left to right, as the Go `strings.Split`. The fuel is
structural only; `splitOnList` supplies enough of it. -/
def splitOnAux (sep : List Char) : Nat → List Char → List Char → List (List Char)
  | 0, xs, acc => [acc ++ xs]
  | _ + 1, [], acc => [acc]
  | fuel + 1, x :: rest, acc =>
    if sep.isPrefixOf (x :: rest) then
      acc :: splitOnAux sep fuel (List.drop sep.length (x :: rest)) []
    else
      splitOnAux sep fuel rest (acc ++ [x])

/-- The Go `strings.Split` for a non-empty separator: one part per
separator occurrence, plus one. -/
def splitOnList (sep xs : List Char) : List (List Char) :=
  splitOnAux sep (xs.length + 1) xs []

/-- The literal citation marker of the `Chat` handler. -/
def citMarker : List Char := "CITATIONS:".toList

/-- The literal `none` answer the prompt allows the model to give. -/
def noneWord : List Char := "none".toList

/-- The loop body of the citation parse in `Chat`: trim the token, parse
it with `strconv.Atoi`, and append the 0-based index `num - 1` exactly
when `num > 0 && num <= len(similarEntries)`. -/
def citFold (n : Nat) (acc : List Nat) (tok : List Char) : List Nat :=
  match atoi (trimList tok) with
  | some num => if 0 < num ∧ num ≤ (n : Int) then acc ++ [(num - 1).toNat] else acc
  | none => acc

/-- The citation-segment parse of `Chat`: the trimmed segment is compared
against `none` and the empty string first; otherwise it is split on
commas and folded with `citFold`. -/
def codeCitations (seg : List Char) (n : Nat) : List Nat :=
  if trimList seg = noneWord ∨ trimList seg = [] then []
  else (splitOnList [','] (trimList seg)).foldl (citFold n) []

/-- The response parse of `Chat`: split the model response on the
marker; when the split yields exactly two parts, the answer is the
trimmed first part and the citations come from the second; otherwise the
whole response is the answer with no citations. Returns the answer and
the 0-based cited indices. -/
def parseChat (resp : List Char) (n : Nat) : List Char × List Nat :=
  if (splitOnList citMarker resp).length = 2 then
    (trimList ((splitOnList citMarker resp).getD 0 []),
     codeCitations ((splitOnList citMarker resp).getD 1 []) n)
  else (resp, [])

/-- Modelled from the spec: the per-token citation rule in its words —
parse the token as an integer, discard it unless `1 ≤ k ≤ n`, and map a
surviving ordinal `k` to the 0-based index `k - 1`. -/
def specTok (n : Nat) (tok : List Char) : Option Nat :=
  match atoi tok with
  | some k => if 1 ≤ k ∧ k ≤ (n : Int) then some (k - 1).toNat else none
  | none => none

/-- Modelled from the spec: the citation-segment grammar in its words —
split the segment on commas, trim whitespace, keep exactly the tokens
that parse to an ordinal in range, in order. -/
def specCitations (seg : List Char) (n : Nat) : List Nat :=
  ((splitOnList [','] (trimList seg)).map trimList).filterMap (specTok n)

/-- The result of one `Chat` call, reduced to the fields the claims are
about: the answer text and the cited 0-based indices. -/
structure ChatOut where
  answer : List Char
  cited : List Nat
deriving DecidableEq, Repr

/-- The entry list the `Chat` handler works with after the similarity
search: the search result on success, and the nil list on failure (the
code logs the error and continues; its comment reads: continue without
context if search fails). -/
def chatSimilar : Except Unit (List Entry) → List Entry
  | .ok l => l
  | .error _ => []

/-- The `Chat` handler from the similarity search on. A failure of the
LLM call is returned to the caller as an error; otherwise the response is
parsed into answer and citations against the number of offered entries.
The search result and the LLM call are parameters, so the theorems cover
every failure pattern. -/
def chatHandler (searchRes : Except Unit (List Entry))
    (llm : List Entry → Except Unit (List Char)) : Except Unit ChatOut :=
  match llm (chatSimilar searchRes) with
  | .error _ => .error ()
  | .ok resp =>
    .ok ⟨(parseChat resp (chatSimilar searchRes).length).1,
         (parseChat resp (chatSimilar searchRes).length).2⟩

/-- Whether an `Except` result of the handler is a success. -/
def chatOk : Except Unit ChatOut → Bool
  | .ok _ => true
  | .error _ => false

/-- The per-note outcome inside one sync cycle of `updateVectors`. -/
inductive SyncOutcome where
  | embedFailed
  | upsertFailed
  | synced
deriving DecidableEq, Repr

/-- The loop of `updateVectors` over the fetched batch: generate an
embedding for the entry, on failure log and continue with the next note;
otherwise write the vector, on failure log and continue. The embedding
client and the store write are oracle parameters, so the theorem ranges
over every pattern of per-note failures. The returned list records, in
batch order, each attempted note id with its outcome. -/
def runBatch (embedF : Entry → Except Unit (List ℤ))
    (upsertF : Nat → List ℤ → Except Unit Unit) : List Entry → List (Nat × SyncOutcome)
  | [] => []
  | e :: rest =>
    (match embedF e with
     | .error _ => (e.id, SyncOutcome.embedFailed)
     | .ok v =>
       match upsertF e.id v with
       | .error _ => (e.id, SyncOutcome.upsertFailed)
       | .ok _ => (e.id, SyncOutcome.synced)) :: runBatch embedF upsertF rest

/-- The state of the cycle mutex discipline of `updateVectors`: which of
the two invocations (if any) holds `s.mu`, the program counter of each
invocation, and the log of completed cycle bodies in completion order.
Invocation `false` is the one already running a cycle; invocation `true`
is the trigger that fires meanwhile. Program counters: 0 = about to
acquire the mutex, 1 = holding it, about to run the cycle body, 2 =
about to release, 3 = returned. -/
structure MuxState where
  lock : Option Bool
  pcA : Nat
  pcB : Nat
  work : List Bool
deriving DecidableEq, Repr

/-- One step of invocation `g`. At pc 0 the Go `sync.Mutex.Lock` blocks
while the mutex is held: the invocation stays at pc 0 and retries when
scheduled again; it does not return. -/
def muxStep (g : Bool) (s : MuxState) : MuxState :=
  match g with
  | false =>
    match s.pcA with
    | 0 =>
      match s.lock with
      | none => { s with lock := some false, pcA := 1 }
      | some _ => s
    | 1 => { s with work := s.work ++ [false], pcA := 2 }
    | 2 => { s with lock := none, pcA := 3 }
    | _ => s
  | true =>
    match s.pcB with
    | 0 =>
      match s.lock with
      | none => { s with lock := some true, pcB := 1 }
      | some _ => s
    | 1 => { s with work := s.work ++ [true], pcB := 2 }
    | 2 => { s with lock := none, pcB := 3 }
    | _ => s

/-- Run a schedule: at each step the named invocation executes one
instruction (or stays put when blocked on the mutex). -/
def muxRun (sched : List Bool) (s : MuxState) : MuxState :=
  sched.foldl (fun st g => muxStep g st) s

/-- Both invocations about to acquire the mutex, nothing done yet. -/
def muxInit : MuxState := ⟨none, 0, 0, []⟩

/-- Whether invocation `g` is inside the mutex-protected region (holding
the lock at pc 1 or 2). -/
def inCritB (g : Bool) (s : MuxState) : Bool :=
  match g with
  | false => s.pcA == 1 || s.pcA == 2
  | true => s.pcB == 1 || s.pcB == 2

/-- A schedule in which the trigger (invocation `true`) fires while
invocation `false` holds the mutex mid-cycle, and both then run to
completion. -/
def muxDemoSched : List Bool := [false, true, false, false, true, true, true]

/-- Lock-ownership invariant of the mutex discipline: an invocation whose
program counter is inside the protected region holds the lock. -/
def muxInv (s : MuxState) : Prop :=
  ((s.pcA = 1 ∨ s.pcA = 2) → s.lock = some false) ∧
  ((s.pcB = 1 ∨ s.pcB = 2) → s.lock = some true)

/-- `UpdateEntryVector` (SQL): one atomic `UPDATE` that sets
`embedding_vector = $2` and stamps `vectors_updated_at =
CURRENT_TIMESTAMP`. -/
def updateEntryVector (e : Entry) (vec : List ℤ) (now : Int) : Entry :=
  { e with embedding := some vec, vectorsUpdatedAt := some now }

/-- A content edit (`UpdateEntry` SQL): among its effects, it sets
`updated_at = NOW()`; only the timestamp matters to staleness. -/
def touchEntry (e : Entry) (t : Int) : Entry :=
  { e with updatedAt := t }

/-- The `VectorService` lifecycle state that `Start` and `Stop` consult:
the `running` flag and whether `stopCh` has been closed. `New` creates
the channel open; no code path ever recreates it. -/
structure SvcState where
  running : Bool
  stopClosed : Bool
deriving DecidableEq, Repr

/-- The state after `New`: not running, `stopCh` open. -/
def svcNew : SvcState := ⟨false, false⟩

/-- `Start`: a no-op when already running, otherwise sets `running`.
(The spawned goroutines are irrelevant to the lifecycle claim.) -/
def svcStart (s : SvcState) : SvcState :=
  if s.running then s else { s with running := true }

/-- `Stop`: a no-op when not running; otherwise it executes
`close(s.stopCh)` — which panics when the channel is already closed,
modelled as `none` — and clears `running`. -/
def svcStop (s : SvcState) : Option SvcState :=
  if !s.running then some s
  else if s.stopClosed then none
  else some ⟨false, true⟩

/-- The call sequence of the claim: `Start(); Stop(); Start(); Stop()`,
propagating a panic. -/
def svcStartStopTwice : Option SvcState :=
  (svcStop (svcStart svcNew)).bind (fun s => svcStop (svcStart s))

end Journal

namespace Journal

/-- C1: for every owner scope `uid` and limit `lim`,
`GetEntriesNeedingVectors` returns only non-archived notes of that owner
that satisfy the staleness predicate, ordered by `updated_at` descending,
with at most `lim` notes; and it is exhaustive: every qualifying note of
the table is returned unless the limit truncated the result. -/
theorem getEntriesNeedingVectors_correct (table : List Entry) (uid lim : Nat) :
    (∀ e ∈ getEntriesNeedingVectors uid lim table,
        e.userId = uid ∧ e.archived = false ∧ staleB e = true) ∧
    (getEntriesNeedingVectors uid lim table).Sorted updatedDesc ∧
    (getEntriesNeedingVectors uid lim table).length ≤ lim ∧
    (∀ e ∈ table, e.userId = uid → e.archived = false → staleB e = true →
        e ∈ getEntriesNeedingVectors uid lim table ∨
          (getEntriesNeedingVectors uid lim table).length = lim) := by
  unfold getEntriesNeedingVectors
  refine ⟨?_, ?_, ?_, ?_⟩
  · intro e he
    have h1 : e ∈ (table.filter (needsVectorsB uid)).insertionSort updatedDesc :=
      List.mem_of_mem_take he
    have h2 : e ∈ table.filter (needsVectorsB uid) :=
      (List.mem_insertionSort updatedDesc).1 h1
    have h3 : needsVectorsB uid e = true := (List.mem_filter.1 h2).2
    simp only [needsVectorsB, Bool.and_eq_true, beq_iff_eq, Bool.not_eq_true'] at h3
    exact ⟨h3.1.1, h3.1.2, h3.2⟩
  · exact (List.sorted_insertionSort updatedDesc _).sublist (List.take_sublist _ _)
  · exact List.length_take_le _ _
  · intro e hmem huid harch hstale
    have hf : e ∈ table.filter (needsVectorsB uid) := by
      refine List.mem_filter.2 ⟨hmem, ?_⟩
      simp [needsVectorsB, huid, harch, hstale]
    have hs : e ∈ (table.filter (needsVectorsB uid)).insertionSort updatedDesc :=
      (List.mem_insertionSort updatedDesc).2 hf
    by_cases hl :
        ((table.filter (needsVectorsB uid)).insertionSort updatedDesc).length ≤ lim
    · left
      rw [List.take_of_length_le hl]
      exact hs
    · right
      rw [List.length_take]
      exact Nat.min_eq_left (Nat.le_of_not_le hl)

/-- Witness for C1: in the concrete table, entry 1 of owner 7 is stale and
indeed returned (the limit 10 does not truncate). -/
theorem getEntriesNeedingVectors_correct_witness :
    (⟨1, 7, false, 100, none, none⟩ : Entry) ∈ getEntriesNeedingVectors 7 10 c1Table ∨
      (getEntriesNeedingVectors 7 10 c1Table).length = 10 :=
  (getEntriesNeedingVectors_correct c1Table 7 10).2.2.2
    ⟨1, 7, false, 100, none, none⟩ (by decide) (by decide) (by decide) (by decide)

/-- C2 counterexample: with query `[1, 0]` over `c2Table`, the code
returns note 2 before note 1 (Euclidean squared distances 2 < 81), yet
note 1 has strictly smaller cosine distance to the query than note 2, so
the result is not ordered by ascending cosine distance and the returned
distance is not the cosine distance. -/
theorem searchSimilarEntries_cosine_cex :
    searchSimilarEntries 7 [1, 0] 5 c2Table =
      [⟨⟨2, 7, false, 0, some 0, some [0, 1]⟩, 2⟩,
       ⟨⟨1, 7, false, 0, some 0, some [10, 0]⟩, 81⟩] ∧
    cosDistLt [10, 0] [0, 1] [1, 0] := by
  decide

/-- C2 amended: `SearchSimilarEntries` returns at most `k` rows, each a
non-archived note of the owner with an embedding present, with the row
distance equal to the (squared) Euclidean distance between the stored
embedding and the query vector, ordered by ascending Euclidean
distance. -/
theorem searchSimilarEntries_correct (table : List Entry) (uid : Nat) (q : List ℤ) (k : Nat) :
    (∀ r ∈ searchSimilarEntries uid q k table,
        r.entry.userId = uid ∧ r.entry.archived = false ∧
          r.entry.embedding.isSome = true ∧
          r.distSq = l2distSq (r.entry.embedding.getD []) q) ∧
    (searchSimilarEntries uid q k table).Sorted distAsc ∧
    (searchSimilarEntries uid q k table).length ≤ k := by
  unfold searchSimilarEntries
  refine ⟨?_, ?_, ?_⟩
  · intro r hr
    have h1 : r ∈ ((table.filter (searchFilterB uid)).map
        (fun e => (⟨e, l2distSq (e.embedding.getD []) q⟩ : SimRow))).insertionSort distAsc :=
      List.mem_of_mem_take hr
    have h2 : r ∈ (table.filter (searchFilterB uid)).map
        (fun e => (⟨e, l2distSq (e.embedding.getD []) q⟩ : SimRow)) :=
      (List.mem_insertionSort distAsc).1 h1
    obtain ⟨e, he, rfl⟩ := List.mem_map.1 h2
    have h3 : searchFilterB uid e = true := (List.mem_filter.1 he).2
    simp only [searchFilterB, Bool.and_eq_true, beq_iff_eq, Bool.not_eq_true'] at h3
    exact ⟨h3.1.1, h3.1.2, h3.2, rfl⟩
  · exact (List.sorted_insertionSort distAsc _).sublist (List.take_sublist _ _)
  · exact List.length_take_le _ _

/-- Witness for C2 amended: the first returned row for the concrete query
satisfies all the per-row guarantees. -/
theorem searchSimilarEntries_correct_witness :
    (⟨⟨2, 7, false, 0, some 0, some [0, 1]⟩, 2⟩ : SimRow).entry.userId = 7 ∧
    (⟨⟨2, 7, false, 0, some 0, some [0, 1]⟩, 2⟩ : SimRow).entry.archived = false ∧
    (⟨⟨2, 7, false, 0, some 0, some [0, 1]⟩, 2⟩ : SimRow).entry.embedding.isSome = true ∧
    (⟨⟨2, 7, false, 0, some 0, some [0, 1]⟩, 2⟩ : SimRow).distSq =
      l2distSq ((⟨⟨2, 7, false, 0, some 0, some [0, 1]⟩, 2⟩ : SimRow).entry.embedding.getD [])
        [1, 0] :=
  (searchSimilarEntries_correct c2Table 7 [1, 0] 5).1
    ⟨⟨2, 7, false, 0, some 0, some [0, 1]⟩, 2⟩ (by decide)

/-- C10: the lifecycle is not restartable. After `Start(); Stop()` the
stop channel is closed and `running` is cleared; a second `Start()` sets
`running` again without recreating the channel; the second `Stop()` then
reaches `close` on the already-closed channel and panics. -/
theorem svcStop_restart_panics :
    svcStartStopTwice = none ∧
    svcStop (svcStart svcNew) = some ⟨false, true⟩ ∧
    svcStart ((svcStop (svcStart svcNew)).getD svcNew) = ⟨true, true⟩ := by
  decide

/-- C8: a note is stale immediately after its `updated_at` is set past
the watermark, and not stale immediately after `UpdateEntryVector`
stamps the new vector, provided no later edit moved `updated_at` past the
stamping time. -/
theorem stale_edit_upsert (e : Entry) (vec : List ℤ) (t now : Int) :
    ((∀ s, e.vectorsUpdatedAt = some s → s < t) → staleB (touchEntry e t) = true) ∧
    (e.updatedAt ≤ now → staleB (updateEntryVector e vec now) = false) := by
  constructor
  · intro h
    unfold staleB touchEntry
    cases hv : e.vectorsUpdatedAt with
    | none => simp [hv]
    | some s => simp [hv, h s hv]
  · intro h
    unfold staleB updateEntryVector
    simp [not_lt.mpr h]

/-- Witness for C8 at a concrete note: an edit stamped 20 against a
watermark of 5 makes it stale; an upsert stamped 50 against a content
timestamp of 10 makes it fresh. -/
theorem stale_edit_upsert_witness :
    staleB (touchEntry ⟨1, 7, false, 10, some 5, some [1]⟩ 20) = true ∧
    staleB (updateEntryVector ⟨1, 7, false, 10, some 5, some [1]⟩ [2] 50) = false :=
  ⟨(stale_edit_upsert ⟨1, 7, false, 10, some 5, some [1]⟩ [2] 20 50).1
      (fun s hs => by simp at hs; omega),
   (stale_edit_upsert ⟨1, 7, false, 10, some 5, some [1]⟩ [2] 20 50).2 (by decide)⟩

/-- C6: within one cycle, every note of the batch is processed exactly
once and in order, whatever pattern of `Embed` or `UpsertVector`
failures the oracles produce — a failed note never aborts the rest of
the batch, and the cycle always completes. -/
theorem updateVectors_continue_on_failure (embedF : Entry → Except Unit (List ℤ))
    (upsertF : Nat → List ℤ → Except Unit Unit) (batch : List Entry) :
    (runBatch embedF upsertF batch).map Prod.fst = batch.map Entry.id := by
  induction batch with
  | nil => rfl
  | cons e rest ih =>
    cases he : embedF e with
    | error u => simp [runBatch, he, ih]
    | ok v =>
      cases hu : upsertF e.id v with
      | error u => simp [runBatch, he, hu, ih]
      | ok u => simp [runBatch, he, hu, ih]

/-- C5 counterexample: when the nearest-neighbor search fails but the
LLM call succeeds, the handler returns a success with a context-free
answer — it does not surface the retrieval failure as an error result. -/
theorem chat_search_failure_cex :
    chatHandler (.error ()) (fun _ => .ok ("Hello".toList)) =
      .ok ⟨"Hello".toList, []⟩ ∧
    chatOk (chatHandler (.error ()) (fun _ => .ok ("Hello".toList))) = true :=
  ⟨rfl, rfl⟩

/-- C5 amended: a failed nearest-neighbor query is absorbed, not
surfaced: the handler behaves exactly as if the search had returned no
entries, and whenever the LLM then answers, the caller receives a
success built from an empty context. -/
theorem chat_search_failure_degrades (llm : List Entry → Except Unit (List Char)) :
    chatHandler (.error ()) llm = chatHandler (.ok []) llm ∧
    (∀ resp, llm [] = .ok resp →
      chatHandler (.error ()) llm = .ok ⟨(parseChat resp 0).1, (parseChat resp 0).2⟩) := by
  constructor
  · rfl
  · intro resp h
    unfold chatHandler
    simp [chatSimilar, h]

/-- Witness for C5 amended, with an LLM oracle that always answers. -/
theorem chat_search_failure_degrades_witness :
    chatHandler (.error ()) (fun _ => .ok ("Hi there".toList)) =
      .ok ⟨(parseChat ("Hi there".toList) 0).1, (parseChat ("Hi there".toList) 0).2⟩ :=
  (chat_search_failure_degrades (fun _ => .ok ("Hi there".toList))).2 ("Hi there".toList) rfl

/-- C4 counterexample: on a response with two markers the split yields
three parts, so the code takes the fallback branch: the answer is the
whole response, not the trimmed text before the first marker. -/
theorem chat_marker_cex :
    (parseChat ("A".toList ++ citMarker ++ " 1,2 CITATIONS: x".toList) 9).1 ≠
      trimList ("A".toList) ∧
    parseChat ("A".toList ++ citMarker ++ " 1,2 CITATIONS: x".toList) 9 =
      ("A".toList ++ citMarker ++ " 1,2 CITATIONS: x".toList, []) := by
  decide

/-- C4 amended: whenever the marker split does not yield exactly two
parts — the marker is absent, or occurs two or more times — the parser
takes the total fallback branch: the entire response is the answer and
the cited set is empty; no input crashes it. -/
theorem chat_marker_fallback (resp : List Char) (n : Nat)
    (h : (splitOnList citMarker resp).length ≠ 2) :
    parseChat resp n = (resp, []) := by
  unfold parseChat
  rw [if_neg h]

/-- Witness for C4 amended at a double-marker response. -/
theorem chat_marker_fallback_witness :
    parseChat ("A CITATIONS: 1,2 CITATIONS: x".toList) 9 =
      ("A CITATIONS: 1,2 CITATIONS: x".toList, []) :=
  chat_marker_fallback ("A CITATIONS: 1,2 CITATIONS: x".toList) 9 (by decide)

/-- The append-accumulating fold of the citation loop equals the
filter-map of the per-token rule over the trimmed tokens. -/
theorem foldl_citFold (n : Nat) (toks : List (List Char)) (acc : List Nat) :
    toks.foldl (citFold n) acc = acc ++ toks.filterMap (fun tok => specTok n (trimList tok)) := by
  induction toks generalizing acc with
  | nil => simp
  | cons t ts ih =>
    rw [List.foldl_cons, ih]
    unfold citFold specTok
    cases h : atoi (trimList t) with
    | none => simp [h]
    | some k =>
      by_cases hk : 0 < k ∧ k ≤ (n : Int)
      · have hk1 : 1 ≤ k ∧ k ≤ (n : Int) := ⟨by omega, hk.2⟩
        simp [h, hk, hk1, List.filterMap_cons]
      · have hk1 : ¬(1 ≤ k ∧ k ≤ (n : Int)) := by
          intro hc
          exact hk ⟨by omega, hc.2⟩
        simp [h, hk, hk1, List.filterMap_cons]

/-- The citation-segment parse of the code computes exactly the
spec-worded grammar, including on the `none` and empty segments. -/
theorem codeCitations_eq_spec (seg : List Char) (n : Nat) :
    codeCitations seg n = specCitations seg n := by
  unfold codeCitations specCitations
  by_cases h : trimList seg = noneWord ∨ trimList seg = ([] : List Char)
  · rw [if_pos h]
    rcases h with h | h <;> rw [h] <;> rfl
  · rw [if_neg h, foldl_citFold, List.nil_append, List.filterMap_map]
    rfl

/-- C3: on a response with exactly one marker occurrence (the split has
two parts), the answer is the trimmed text before the marker and the
cited indices are exactly the spec grammar applied to the segment after
it — split on commas, trim, keep ordinals in range, map each to its
0-based index, in order; with no marker occurrence (one part), the whole
response is the answer and the cited set is empty. -/
theorem chat_citation_parsing (resp : List Char) (n : Nat) :
    ((splitOnList citMarker resp).length = 2 →
      parseChat resp n =
        (trimList ((splitOnList citMarker resp).getD 0 []),
         specCitations ((splitOnList citMarker resp).getD 1 []) n)) ∧
    ((splitOnList citMarker resp).length = 1 →
      parseChat resp n = (resp, [])) := by
  constructor
  · intro h
    unfold parseChat
    rw [if_pos h, codeCitations_eq_spec]
  · intro h
    unfold parseChat
    rw [if_neg (by simp [h])]

/-- Witness for C3 at a concrete response offering three notes: ordinal
2 survives, `x` fails to parse, 0 and 7 are out of range, ordinal 1
survives. -/
theorem chat_citation_parsing_witness :
    parseChat ("The answer. CITATIONS: 2, x, 0, 7, 1".toList) 3 =
      (trimList ((splitOnList citMarker ("The answer. CITATIONS: 2, x, 0, 7, 1".toList)).getD 0 []),
       specCitations
         ((splitOnList citMarker ("The answer. CITATIONS: 2, x, 0, 7, 1".toList)).getD 1 []) 3) :=
  (chat_citation_parsing ("The answer. CITATIONS: 2, x, 0, 7, 1".toList) 3).1 (by decide)

/-- Counting through a filter-map: each token that resolves to index `i`
contributes exactly one occurrence of `i`. -/
theorem count_filterMap_specTok (n i : Nat) (toks : List (List Char)) :
    (toks.filterMap (specTok n)).count i = toks.countP (fun tok => specTok n tok == some i) := by
  induction toks with
  | nil => rfl
  | cons t ts ih =>
    cases h : specTok n t with
    | none => simp [List.filterMap_cons, h, List.countP_cons, ih]
    | some k =>
      by_cases hk : k = i
      · subst hk
        simp [List.filterMap_cons, h, List.countP_cons, List.count_cons, ih]
      · simp [List.filterMap_cons, h, List.countP_cons, List.count_cons, ih, hk]

/-- C9: the citation parser performs no deduplication — in the resolved
index list, an index occurs once per surviving token that names its
ordinal, so a repeated valid ordinal is resolved once per occurrence. -/
theorem chat_citation_no_dedup (resp : List Char) (n i : Nat)
    (h : (splitOnList citMarker resp).length = 2) :
    ((parseChat resp n).2).count i =
      ((splitOnList [','] (trimList ((splitOnList citMarker resp).getD 1 []))).map
          trimList).countP (fun tok => specTok n tok == some i) := by
  unfold parseChat
  rw [if_pos h]
  show (codeCitations ((splitOnList citMarker resp).getD 1 []) n).count i = _
  rw [codeCitations_eq_spec]
  unfold specCitations
  rw [count_filterMap_specTok]

/-- Witness for C9 at a response citing ordinal 2 three times among three
offered notes: index 1 is resolved three times. -/
theorem chat_citation_no_dedup_witness :
    ((parseChat ("Ans CITATIONS: 2, 2, 1, 2".toList) 3).2).count 1 =
      ((splitOnList [','] (trimList
          ((splitOnList citMarker ("Ans CITATIONS: 2, 2, 1, 2".toList)).getD 1 []))).map
        trimList).countP (fun tok => specTok 3 tok == some 1) :=
  chat_citation_no_dedup ("Ans CITATIONS: 2, 2, 1, 2".toList) 3 1 (by decide)

/-- The lock-ownership invariant is preserved by every step of either
invocation. -/
theorem muxInv_step (g : Bool) (s : MuxState) (h : muxInv s) : muxInv (muxStep g s) := by
  obtain ⟨hA, hB⟩ := h
  cases g
  case false =>
    unfold muxStep
    cases hpc : s.pcA with
    | zero =>
      cases hl : s.lock with
      | none =>
        exact ⟨fun _ => rfl, fun hb => absurd (hB hb) (by simp [hl])⟩
      | some w =>
        exact ⟨hA, hB⟩
    | succ p =>
      cases p with
      | zero =>
        exact ⟨fun _ => hA (Or.inl hpc), hB⟩
      | succ q =>
        cases q with
        | zero =>
          refine ⟨fun ha => by simp at ha, fun hb => ?_⟩
          exfalso
          have h1 : s.lock = some true := hB hb
          have h2 : s.lock = some false := hA (Or.inr hpc)
          rw [h1] at h2
          simp at h2
        | succ r =>
          exact ⟨hA, hB⟩
  case true =>
    unfold muxStep
    cases hpc : s.pcB with
    | zero =>
      cases hl : s.lock with
      | none =>
        exact ⟨fun ha => absurd (hA ha) (by simp [hl]), fun _ => rfl⟩
      | some w =>
        exact ⟨hA, hB⟩
    | succ p =>
      cases p with
      | zero =>
        exact ⟨hA, fun _ => hB (Or.inl hpc)⟩
      | succ q =>
        cases q with
        | zero =>
          refine ⟨fun ha => ?_, fun hb => by simp at hb⟩
          exfalso
          have h1 : s.lock = some true := hB (Or.inr hpc)
          have h2 : s.lock = some false := hA ha
          rw [h1] at h2
          simp at h2
        | succ r =>
          exact ⟨hA, hB⟩

/-- The lock-ownership invariant holds in every state reachable from the
initial state under any schedule. -/
theorem muxInv_run (sched : List Bool) : muxInv (muxRun sched muxInit) := by
  have key : ∀ s, muxInv s → muxInv (muxRun sched s) := by
    induction sched with
    | nil => exact fun s hs => hs
    | cons g gs ih =>
      intro s hs
      exact ih (muxStep g s) (muxInv_step g s hs)
  exact key muxInit ⟨fun h => by simp [muxInit] at h, fun h => by simp [muxInit] at h⟩

/-- C7 counterexample: schedule invocation `false` to take the mutex,
then let the trigger fire — after the prefix the lock is held by `false`
and the trigger is still blocked at its acquire — and then run both to
completion: the trigger performs the full cycle body afterwards (work log
`[false, true]`), so a trigger arriving while a cycle is in progress is
queued by `sync.Mutex.Lock`, not dropped. -/
theorem mutex_trigger_not_dropped_cex :
    (muxRun [false, true] muxInit).lock = some false ∧
    (muxRun [false, true] muxInit).pcB = 0 ∧
    (muxRun muxDemoSched muxInit).work = [false, true] := by
  decide

/-- C7 amended: the cycle mutex serializes cycles — under every schedule
at most one invocation is ever inside the protected region — and a
trigger that fires while a cycle is in progress blocks on the mutex and
runs its full cycle once the mutex is released (queued, not dropped), as
the demonstration schedule shows. -/
theorem mutex_serializes_cycles :
    (∀ sched : List Bool,
      (inCritB false (muxRun sched muxInit) && inCritB true (muxRun sched muxInit)) = false) ∧
    muxRun muxDemoSched muxInit = ⟨none, 3, 3, [false, true]⟩ := by
  refine ⟨?_, by decide⟩
  intro sched
  have h := muxInv_run sched
  cases hx : inCritB false (muxRun sched muxInit) with
  | false => simp
  | true =>
    cases hy : inCritB true (muxRun sched muxInit) with
    | false => simp
    | true =>
      exfalso
      unfold inCritB at hx hy
      simp only [Bool.or_eq_true, beq_iff_eq] at hx hy
      have h1 : (muxRun sched muxInit).lock = some false := h.1 hx
      have h2 : (muxRun sched muxInit).lock = some true := h.2 hy
      rw [h1] at h2
      simp at h2

end Journal
